import Mathlib

/-!
Verification development for the String Analyzer performance pipeline
(src/app.py).  The pipeline manipulates pandas float columns, so numeric
cells are modelled by the type `F` below: a finite rational, plus the two
infinities and NaN, with IEEE-style arithmetic (NaN propagates, x/0 gives a
signed infinity, comparisons with NaN are false).  Column-level operations
(`sum`, `mean`, `std` with its default `ddof = 1`, `sort_values` with NaN
placed last, `merge_asof` with `direction="nearest"`) are embedded as
executable functions on lists of `F`.
-/

/-- A pandas float cell: a finite rational, `+inf`, `-inf`, or NaN. -/
inductive F where
  | fin : ℚ → F
  | pinf : F
  | ninf : F
  | nan : F
deriving DecidableEq

namespace F

/-- NaN test (pandas `isna` on a float cell). -/
def isNan : F → Bool
  | nan => true
  | _ => false

/-- IEEE-style addition: NaN propagates, `+inf + -inf = NaN`. -/
def add : F → F → F
  | fin a, fin b => fin (a + b)
  | fin _, pinf => pinf
  | fin _, ninf => ninf
  | fin _, nan => nan
  | pinf, fin _ => pinf
  | pinf, pinf => pinf
  | pinf, ninf => nan
  | pinf, nan => nan
  | ninf, fin _ => ninf
  | ninf, pinf => nan
  | ninf, ninf => ninf
  | ninf, nan => nan
  | nan, _ => nan

/-- IEEE-style negation. -/
def neg : F → F
  | fin a => fin (-a)
  | pinf => ninf
  | ninf => pinf
  | nan => nan

/-- IEEE-style subtraction. -/
def sub (a b : F) : F := add a (neg b)

/-- IEEE-style multiplication: NaN propagates, `0 * inf = NaN`. -/
def mul : F → F → F
  | fin a, fin b => fin (a * b)
  | fin a, pinf => if 0 < a then pinf else if a < 0 then ninf else nan
  | fin a, ninf => if 0 < a then ninf else if a < 0 then pinf else nan
  | fin _, nan => nan
  | pinf, fin b => if 0 < b then pinf else if b < 0 then ninf else nan
  | pinf, pinf => pinf
  | pinf, ninf => ninf
  | pinf, nan => nan
  | ninf, fin b => if 0 < b then ninf else if b < 0 then pinf else nan
  | ninf, pinf => ninf
  | ninf, ninf => pinf
  | ninf, nan => nan
  | nan, _ => nan

/-- IEEE-style division: a nonzero finite number divided by zero gives a
signed infinity, `0 / 0` gives NaN, NaN propagates, `inf / inf = NaN`. -/
def div : F → F → F
  | fin a, fin b =>
      if b = 0 then (if 0 < a then pinf else if a < 0 then ninf else nan)
      else fin (a / b)
  | fin _, pinf => fin 0
  | fin _, ninf => fin 0
  | fin _, nan => nan
  | pinf, fin b => if 0 ≤ b then pinf else ninf
  | pinf, pinf => nan
  | pinf, ninf => nan
  | pinf, nan => nan
  | ninf, fin b => if 0 ≤ b then ninf else pinf
  | ninf, pinf => nan
  | ninf, ninf => nan
  | ninf, nan => nan
  | nan, _ => nan

/-- IEEE-style absolute value. -/
def absF : F → F
  | fin a => fin |a|
  | pinf => pinf
  | ninf => pinf
  | nan => nan

/-- IEEE-style strict comparison: any comparison involving NaN is false. -/
def lt : F → F → Bool
  | fin a, fin b => decide (a < b)
  | fin _, pinf => true
  | fin _, ninf => false
  | fin _, nan => false
  | pinf, _ => false
  | ninf, fin _ => true
  | ninf, pinf => true
  | ninf, ninf => false
  | ninf, nan => false
  | nan, _ => false

/-- Sum of a float column with pandas default `skipna=True`: NaN cells are
dropped, the empty sum is `0.0`. -/
def sumSkip : List F → F
  | [] => fin 0
  | x :: xs => if x.isNan then sumSkip xs else add x (sumSkip xs)

/-- Mean of a float column with pandas default `skipna=True`: NaN cells are
dropped; the mean of an empty or all-NaN column is NaN. -/
def meanSkip (l : List F) : F :=
  let xs := l.filter (fun x => !x.isNan)
  if xs.length = 0 then nan else div (sumSkip l) (fin xs.length)

/-- Sample variance (square of pandas `Series.std()` with its default
`ddof = 1`), over the non-NaN cells: NaN when fewer than two values remain.
`std` itself is the square root of this and is never materialised here;
comparisons against `mean - k * std` go through `ltSqrtSeuil` below. -/
def varSkip (l : List F) : F :=
  let xs := l.filter (fun x => !x.isNan)
  if xs.length ≤ 1 then nan
  else
    div (xs.foldr (fun x acc => add (mul (sub x (meanSkip l)) (sub x (meanSkip l))) acc) (fin 0))
      (fin (xs.length - 1 : ℕ))

/-- Decides `ratio < moyenne - (3/2) * sqrt variance` in float semantics
without materialising the square root: for finite operands and a
nonnegative variance, `r < m - (3/2) * sqrt v` holds iff `m - r` is positive
and `(m - r)^2 > (9/4) * v` (the equivalence with `Real.sqrt` is proved in
`ltSqrtSeuil_iff_real`).  Any NaN operand, a NaN variance (fewer than two
peers), or a negative variance makes the comparison false, as in pandas. -/
def ltSqrtSeuil : F → F → F → Bool
  | fin r, fin m, fin v =>
      if v < 0 then false else decide (0 < m - r ∧ (9 : ℚ) / 4 * v < (m - r) ^ 2)
  | ninf, fin _, fin v => decide (0 ≤ v)
  | fin _, pinf, fin v => decide (0 ≤ v)
  | ninf, pinf, fin v => decide (0 ≤ v)
  | _, _, _ => false

end F

/-!
### Ingestion (`traiter_fichier_onduleur`, line 90-94)

`pd.to_numeric(col, errors="coerce")` turns every cell that is not a valid
number into NaN instead of raising.  A raw cell is modelled as either a
number or arbitrary non-numeric text.
-/

/-- A raw input cell before numeric coercion: either numeric content or
text that fails to parse as a number. -/
inductive RawCell where
  | num : ℚ → RawCell
  | text : String → RawCell
deriving DecidableEq

/-- Numeric coercion `pd.to_numeric(cell, errors="coerce")` (lines 91,
111-113, 132): a total function; a cell that fails coercion becomes the
missing-value marker NaN, no exception is raised. -/
def toNumeric : RawCell → F
  | RawCell.num q => F.fin q
  | RawCell.text _ => F.nan

/-!
### Data model of the performance section (lines 771-935)

`df_carac` (from `traiter_fichier_carac`) has one row per string with the
columns `string`, `puissance unitaire`, `nombre pv`; line 802 adds the
derived column `puissance installée (kWc)`.  `df_resultats` (line 811-819)
has one row per string with its produced energy and performance ratio.
-/

/-- One row of `df_carac`: string id, unit panel power (kWc), panel count. -/
structure CaracRow where
  string : ℤ
  puissanceUnitaire : ℚ
  nombrePv : ℤ
deriving DecidableEq

/-- Line 802: `puissance installée (kWc) = puissance unitaire * nombre pv`. -/
def puissanceInstallee (c : CaracRow) : ℚ := c.puissanceUnitaire * c.nombrePv

/-- One row of `df_resultats` (lines 811-819): string id and its
performance ratio `kWh/kWc`.  The id is the integer parsed from the column
label `string {i}`; we carry the id itself, the label being `"string " ++
toString id`. -/
structure ResRow where
  string : ℤ
  ratio : F
deriving DecidableEq

/-- Lines 805-819: per-string produced energy is joined with the
characteristics (`merge(..., on="string", how="left")`) and divided by the
installed capacity.  A string with no matching characteristics row gets a
NaN capacity from the left join, hence a NaN ratio; a zero capacity gives a
signed infinity (or NaN for zero energy) through float division.
`energies` is the list `(string id, produced energy)`; `trouverCarac`
models the join (characteristics files carry one row per string id). -/
def trouverCarac : List CaracRow → ℤ → Option CaracRow
  | [], _ => none
  | c :: cs, s => if c.string = s then some c else trouverCarac cs s

/-- Lines 805-819, continued: the per-string result rows. -/
def calculerResultats (energies : List (ℤ × F)) (carac : List CaracRow) : List ResRow :=
  energies.map (fun e =>
    { string := e.1,
      ratio := F.div e.2 (match trouverCarac carac e.1 with
                          | some c => F.fin (puissanceInstallee c)
                          | none => F.nan) })

/-!
### Ranking (lines 843-851)

`sort_values("ratio kWh/kWc", ascending=False)` places NaN last in both
directions (`na_position` defaults to `"last"`); infinities compare as
ordinary numbers.  The two total preorders below are the corresponding sort
keys.
-/

/-- Sort key of `sort_values(..., ascending=True)`: the usual order on
`-inf`, finite values, `+inf`, with NaN placed last. -/
def F.leAsc : F → F → Bool
  | F.fin a, F.fin b => decide (a ≤ b)
  | F.fin _, F.pinf => true
  | F.fin _, F.ninf => false
  | F.fin _, F.nan => true
  | F.pinf, F.fin _ => false
  | F.pinf, F.pinf => true
  | F.pinf, F.ninf => false
  | F.pinf, F.nan => true
  | F.ninf, _ => true
  | F.nan, F.nan => true
  | F.nan, _ => false

/-- Sort key of `sort_values(..., ascending=False)`: descending on the
non-NaN values, with NaN still placed last. -/
def F.leDesc : F → F → Bool
  | F.fin a, F.fin b => decide (b ≤ a)
  | F.fin _, F.pinf => false
  | F.fin _, F.ninf => true
  | F.fin _, F.nan => true
  | F.pinf, _ => true
  | F.ninf, F.fin _ => false
  | F.ninf, F.pinf => false
  | F.ninf, F.ninf => true
  | F.ninf, F.nan => true
  | F.nan, F.nan => true
  | F.nan, _ => false

/-- Row order used by `df_resultats.sort_values("ratio kWh/kWc",
ascending=False)` (line 843). -/
def RatioDesc (a b : ResRow) : Prop := F.leDesc a.ratio b.ratio = true

/-- Row order used by `df_resultats.sort_values("ratio kWh/kWc",
ascending=True)` (line 844). -/
def RatioAsc (a b : ResRow) : Prop := F.leAsc a.ratio b.ratio = true

instance : DecidableRel RatioDesc := fun _ _ => decEq _ _

instance : DecidableRel RatioAsc := fun _ _ => decEq _ _

/-- Lines 843-851: `top3 = df_resultats.sort_values(..., ascending=False)
.head(min(3, len))`. -/
def top3 (rows : List ResRow) : List ResRow :=
  (List.insertionSort RatioDesc rows).take (min 3 rows.length)

/-- Lines 844-851: `flop3 = df_resultats.sort_values(..., ascending=True)
.head(min(3, len))`. -/
def flop3 (rows : List ResRow) : List ResRow :=
  (List.insertionSort RatioAsc rows).take (min 3 rows.length)

/-!
### Date filtering and energy aggregation (lines 793-807)

Rows of the (already kW-converted) power table are `(date, power)` pairs
for one string column; dates are at day granularity (`dt.date`), modelled
as integers ordered by `≤`.
-/

/-- Line 793: `df_puissance[(time.dt.date >= date_debut) &
(time.dt.date <= date_fin)]` — inclusive on both bounds, at date
granularity. -/
def filtrerPeriode (dateDebut dateFin : ℤ) (rows : List (ℤ × F)) : List (ℤ × F) :=
  rows.filter (fun r => decide (dateDebut ≤ r.1 ∧ r.1 ≤ dateFin))

/-- Lines 805-807: each power sample is multiplied by `10/60` hours and the
column is summed (`skipna`), giving the produced energy in kWh. -/
def energieTotale (rows : List (ℤ × F)) : F :=
  F.sumSkip (rows.map (fun r => F.mul r.2 (F.fin (10 / 60))))

/-!
### Nearest-timestamp alignment (lines 568-573) and theoretical power
(lines 575-584)
-/

/-- The irradiance row whose timestamp is nearest to `t` (pandas
`merge_asof(..., direction="nearest")`); ties keep the earlier row, a
deterministic choice.  `none` only for an empty irradiance table. -/
def nearestRow (t : ℤ) : List (ℤ × F) → Option (ℤ × F)
  | [] => none
  | x :: xs =>
      match nearestRow t xs with
      | none => some x
      | some y => if (x.1 - t).natAbs ≤ (y.1 - t).natAbs then some x else some y

/-- Lines 568-573: `pd.merge_asof(df_puissance[["time"]], df_irradiance,
on="time", direction="nearest")` — for every power timestamp, the
irradiance reading with the closest timestamp (NaN when the irradiance
table is empty). -/
def mergeAsofNearest (times : List ℤ) (irr : List (ℤ × F)) : List (ℤ × F) :=
  times.map (fun t =>
    (t, match nearestRow t irr with
        | some y => y.2
        | none => F.nan))

/-- Lines 577-581: for one characteristics row, the theoretical power
column `df_merged["irradiance"] * n_pv * unitaire * 0.8` over the aligned
`(time, irradiance)` rows. -/
def puissancesTheoriquesString (merged : List (ℤ × F)) (c : CaracRow) : List (ℤ × F) :=
  merged.map (fun p =>
    (p.1, F.mul (F.mul (F.mul p.2 (F.fin c.nombrePv)) (F.fin c.puissanceUnitaire)) (F.fin (8 / 10))))

/-!
### Peer-group anomaly detector (lines 872-934)

For each string whose ratio is below the global mean ratio, the code finds
the other strings with identical `(nombre pv, puissance unitaire)`, takes
the mean and (sample) standard deviation of their ratios, classifies the
string against `moyenne - 1.5 * ecart_type`, and appends a row whose
deviation cell is built by `f"{ecart_pct:.2f}"`.  In the no-peers branch
`ecart_pct` is the string `"—"`, and formatting a `str` with the `:.2f`
format spec raises `ValueError` in Python; the `Except` layer records
exactly that.
-/

/-- Classification message: `"🔴 Anormal"`, `"🟡 Acceptable"`, or
`"Pas d elements de comparaison"` (lines 908-915). -/
inductive Message where
  | anormal : Message
  | acceptable : Message
  | pasComparaison : Message
deriving DecidableEq

/-- The value bound to `ecart_pct`: a float, or the literal dash string
`"—"` of the no-peers branch (line 916). -/
inductive Ecart where
  | val : F → Ecart
  | tiret : Ecart
deriving DecidableEq

/-- One appended alert row (lines 918-922); the deviation is kept
unformatted, `formatDeuxDecimales` models the `:.2f` rendering. -/
structure Alerte where
  string : ℤ
  ecart : Ecart
  message : Message
deriving DecidableEq

/-- Line 920: `f"{ecart_pct:.2f}"`.  Formatting a float always succeeds (we
only model success, not the digits); formatting the dash string raises
`ValueError: Unknown format code f for object of type str`. -/
def formatDeuxDecimales : Ecart → Except String Unit
  | Ecart.val _ => Except.ok ()
  | Ecart.tiret => Except.error "ValueError: Unknown format code f for object of type str"

/-- Lines 892-896: ids of the other strings sharing the panel count and the
unit power of `c` (`strings_comparables`). -/
def stringsComparables (carac : List CaracRow) (c : CaracRow) : List ℤ :=
  (carac.filter (fun c2 =>
    decide (c2.string ≠ c.string ∧ c2.nombrePv = c.nombrePv ∧
      c2.puissanceUnitaire = c.puissanceUnitaire))).map (fun c2 => c2.string)

/-- Line 900: the ratios of the rows of `df_resultats` whose label is among
the comparable strings (`isin` on the labels `string {i}`, which are in
bijection with the ids). -/
def ratiosComparables (res : List ResRow) (ids : List ℤ) : List F :=
  (res.filter (fun r => decide (r.string ∈ ids))).map (fun r => r.ratio)

/-- Body of the loop at lines 882-922 for one below-the-mean row `r`:
look up its characteristics (`.iloc[0]`, an `IndexError` when absent),
collect the comparable ratios, classify against
`moyenne - 1.5 * ecart_type`, compute
`ecart_pct = abs(moyenne - ratio_test) / moyenne * 100`, and build the
alert row, whose construction formats the deviation with `:.2f`. -/
def analyserString (res : List ResRow) (carac : List CaracRow) (r : ResRow) :
    Except String Alerte :=
  match trouverCarac carac r.string with
  | none => Except.error "IndexError: single positional indexer is out-of-bounds"
  | some c =>
      let ratios := ratiosComparables res (stringsComparables carac c)
      let me : Message × Ecart :=
        if ratios.isEmpty then (Message.pasComparaison, Ecart.tiret)
        else
          let moyenne := F.meanSkip ratios
          ((if F.ltSqrtSeuil r.ratio moyenne (F.varSkip ratios) then Message.anormal
            else Message.acceptable),
           Ecart.val (F.mul (F.div (F.absF (F.sub moyenne r.ratio)) moyenne) (F.fin 100)))
      match formatDeuxDecimales me.2 with
      | Except.error e => Except.error e
      | Except.ok _ => Except.ok { string := r.string, ecart := me.2, message := me.1 }

/-- The loop itself, over the rows selected at line 879; the first raised
exception aborts the whole analysis. -/
def analyserListe (res : List ResRow) (carac : List CaracRow) :
    List ResRow → Except String (List Alerte)
  | [] => Except.ok []
  | r :: rs =>
      match analyserString res carac r with
      | Except.error e => Except.error e
      | Except.ok a =>
          match analyserListe res carac rs with
          | Except.error e => Except.error e
          | Except.ok as => Except.ok (a :: as)

/-- Lines 872-922: global mean of the ratios (line 876, `skipna`), selection
of the strings strictly below it (line 879), then one alert row per selected
string. -/
def detecterAlertes (res : List ResRow) (carac : List CaracRow) :
    Except String (List Alerte) :=
  let moyenneGlobale := F.meanSkip (res.map (fun r => r.ratio))
  analyserListe res carac (res.filter (fun r => F.lt r.ratio moyenneGlobale))

/-!
### Helper lemmas
-/

theorem F.add_comm (a b : F) : F.add a b = F.add b a := by
  cases a <;> cases b <;> simp [F.add] <;> ring

theorem F.add_assoc (a b c : F) : F.add (F.add a b) c = F.add a (F.add b c) := by
  cases a <;> cases b <;> cases c <;> simp [F.add] <;> ring

theorem F.zero_add (a : F) : F.add (F.fin 0) a = a := by
  cases a <;> simp [F.add]

/-- The sqrt-free test of `ltSqrtSeuil` agrees, on finite operands with a
nonnegative variance, with the real-number comparison
`r < m - (3/2) * sqrt v` that the source expresses through
`seuil_alerte = moyenne - k * ecart_type` with `k = 1.5`. -/
theorem ltSqrtSeuil_iff_real (r m v : ℚ) (hv : 0 ≤ v) :
    F.ltSqrtSeuil (F.fin r) (F.fin m) (F.fin v) = true ↔
      (r : ℝ) < (m : ℝ) - 3 / 2 * Real.sqrt (v : ℝ) := by
  have hvr : (0 : ℝ) ≤ (v : ℝ) := by exact_mod_cast hv
  simp only [F.ltSqrtSeuil, if_neg (not_lt.mpr hv), decide_eq_true_eq]
  have key : (0 < m - r ∧ (9 : ℚ) / 4 * v < (m - r) ^ 2) ↔
      ((0 : ℝ) < (m : ℝ) - (r : ℝ) ∧ (9 : ℝ) / 4 * (v : ℝ) < ((m : ℝ) - (r : ℝ)) ^ 2) := by
    constructor
    · rintro ⟨h1, h2⟩
      refine ⟨by exact_mod_cast h1, ?_⟩
      have h2r : (((9 : ℚ) / 4 * v : ℚ) : ℝ) < (((m - r) ^ 2 : ℚ) : ℝ) := by exact_mod_cast h2
      push_cast at h2r
      linarith
    · rintro ⟨h1, h2⟩
      refine ⟨by exact_mod_cast h1, ?_⟩
      have h2q : (((9 : ℚ) / 4 * v : ℚ) : ℝ) < (((m - r) ^ 2 : ℚ) : ℝ) := by
        push_cast
        linarith
      exact_mod_cast h2q
  rw [key]
  constructor
  · rintro ⟨hpos, hsq⟩
    have h23 : (0 : ℝ) < 2 / 3 * ((m : ℝ) - (r : ℝ)) := by linarith
    have hlt : Real.sqrt (v : ℝ) < 2 / 3 * ((m : ℝ) - (r : ℝ)) := by
      rw [Real.sqrt_lt' h23]
      nlinarith
    nlinarith [Real.sqrt_nonneg (v : ℝ)]
  · intro h
    have hs := Real.sqrt_nonneg (v : ℝ)
    have hpos : (0 : ℝ) < (m : ℝ) - (r : ℝ) := by nlinarith
    have hlt : Real.sqrt (v : ℝ) < 2 / 3 * ((m : ℝ) - (r : ℝ)) := by nlinarith
    have hsq : (v : ℝ) < (2 / 3 * ((m : ℝ) - (r : ℝ))) ^ 2 := by
      rw [← Real.sqrt_lt' (by linarith)]
      exact hlt
    exact ⟨hpos, by nlinarith⟩

theorem F.leDesc_total (a b : F) : F.leDesc a b = true ∨ F.leDesc b a = true := by
  cases a <;> cases b <;> simp [F.leDesc] <;> exact le_total _ _

theorem F.leDesc_trans {a b c : F} (h1 : F.leDesc a b = true) (h2 : F.leDesc b c = true) :
    F.leDesc a c = true := by
  cases a <;> cases b <;> cases c <;> simp [F.leDesc] at h1 h2 ⊢ <;> exact le_trans h2 h1

theorem F.leAsc_total (a b : F) : F.leAsc a b = true ∨ F.leAsc b a = true := by
  cases a <;> cases b <;> simp [F.leAsc] <;> exact le_total _ _

theorem F.leAsc_trans {a b c : F} (h1 : F.leAsc a b = true) (h2 : F.leAsc b c = true) :
    F.leAsc a c = true := by
  cases a <;> cases b <;> cases c <;> simp [F.leAsc] at h1 h2 ⊢ <;> exact le_trans h1 h2

instance : IsTotal ResRow RatioDesc := ⟨fun a b => F.leDesc_total a.ratio b.ratio⟩

instance : IsTrans ResRow RatioDesc := ⟨fun _ _ _ => F.leDesc_trans⟩

instance : IsTotal ResRow RatioAsc := ⟨fun a b => F.leAsc_total a.ratio b.ratio⟩

instance : IsTrans ResRow RatioAsc := ⟨fun _ _ _ => F.leAsc_trans⟩

/-- Sorted lists split at any index: every kept element dominates every
dropped element, and the two parts are sorted. -/
theorem sorted_take_drop {r : ResRow → ResRow → Prop} {l : List ResRow}
    (hs : List.Sorted r l) (k : ℕ) :
    List.Sorted r (l.take k) ∧ ∀ a ∈ l.take k, ∀ b ∈ l.drop k, r a b := by
  have h := hs
  rw [← List.take_append_drop k l] at h
  have h' := List.pairwise_append.mp h
  exact ⟨h'.1, h'.2.2⟩

/-- Claim C9: `top3` is the `min(3, n)` best rows in descending ratio order
and `flop3` the `min(3, n)` worst rows in ascending order; with fewer than
3 rows both tables are a permutation of the whole result table, and both
functions are total, so no error is raised. -/
theorem top3_flop3_correct (rows : List ResRow) :
    (top3 rows).length = min 3 rows.length ∧
    (flop3 rows).length = min 3 rows.length ∧
    List.Sorted RatioDesc (top3 rows) ∧
    List.Sorted RatioAsc (flop3 rows) ∧
    (∀ a ∈ top3 rows,
      ∀ b ∈ (List.insertionSort RatioDesc rows).drop (min 3 rows.length), RatioDesc a b) ∧
    (∀ a ∈ flop3 rows,
      ∀ b ∈ (List.insertionSort RatioAsc rows).drop (min 3 rows.length), RatioAsc a b) ∧
    ((top3 rows ++ (List.insertionSort RatioDesc rows).drop (min 3 rows.length)).Perm rows) ∧
    ((flop3 rows ++ (List.insertionSort RatioAsc rows).drop (min 3 rows.length)).Perm rows) ∧
    (rows.length < 3 → (top3 rows).Perm rows ∧ (flop3 rows).Perm rows) := by
  have hpd := List.perm_insertionSort RatioDesc rows
  have hpa := List.perm_insertionSort RatioAsc rows
  have hsd := List.sorted_insertionSort RatioDesc rows
  have hsa := List.sorted_insertionSort RatioAsc rows
  have hld := hpd.length_eq
  have hla := hpa.length_eq
  have htd := sorted_take_drop hsd (min 3 rows.length)
  have hta := sorted_take_drop hsa (min 3 rows.length)
  refine ⟨?_, ?_, htd.1, hta.1, htd.2, hta.2, ?_, ?_, ?_⟩
  · simp only [top3, List.length_take, hld]
    omega
  · simp only [flop3, List.length_take, hla]
    omega
  · rw [top3, List.take_append_drop]
    exact hpd
  · rw [flop3, List.take_append_drop]
    exact hpa
  · intro hlt
    constructor
    · rw [top3, min_eq_right (by omega), List.take_of_length_le (by omega)]
      exact hpd
    · rw [flop3, min_eq_right (by omega), List.take_of_length_le (by omega)]
      exact hpa

/-- Witness for `top3_flop3_correct` at a concrete two-row table: both
tables are permutations of the whole table. -/
theorem top3_flop3_correct_witness :
    (top3 [⟨1, F.fin 2⟩, ⟨2, F.fin 5⟩]).Perm [⟨1, F.fin 2⟩, ⟨2, F.fin 5⟩] ∧
    (flop3 [⟨1, F.fin 2⟩, ⟨2, F.fin 5⟩]).Perm [⟨1, F.fin 2⟩, ⟨2, F.fin 5⟩] :=
  (top3_flop3_correct [⟨1, F.fin 2⟩, ⟨2, F.fin 5⟩]).2.2.2.2.2.2.2.2 (by norm_num)

/-- Claim C5: at every aligned timestamp carrying irradiance `g`, the
theoretical power of a string with characteristics `c` is
`g * nombre pv * puissance unitaire * 0.8` (line 581). -/
theorem puissance_theorique_formule (merged : List (ℤ × F)) (c : CaracRow) (i : ℕ)
    (t : ℤ) (g : ℚ) (h : merged[i]? = some (t, F.fin g)) :
    (puissancesTheoriquesString merged c)[i]? =
      some (t, F.fin (g * (c.nombrePv : ℚ) * c.puissanceUnitaire * (8 / 10))) := by
  simp [puissancesTheoriquesString, List.getElem?_map, h, F.mul]

/-- Witness for `puissance_theorique_formule`: irradiance `3/4`, 20 panels
of `1/2` kWc give `3/4 * 20 * 1/2 * 0.8 = 6` kW. -/
theorem puissance_theorique_formule_witness :
    (puissancesTheoriquesString [((0 : ℤ), F.fin (3 / 4))]
        { string := 1, puissanceUnitaire := 1 / 2, nombrePv := 20 })[0]? =
      some ((0 : ℤ), F.fin (3 / 4 * (((20 : ℤ) : ℚ)) * (1 / 2) * (8 / 10))) :=
  puissance_theorique_formule [((0 : ℤ), F.fin (3 / 4))]
    { string := 1, puissanceUnitaire := 1 / 2, nombrePv := 20 } 0 0 (3 / 4) rfl

/-- Claim C7: a cell that fails numeric coercion becomes the NaN marker
(`toNumeric` is total, no exception), and the aggregations used downstream
— column sums, energy totals, means, variances — exclude the NaN cell from
the computation instead of treating it as zero or failing. -/
theorem coercion_nan_exclue (s : String) (l : List F) (d : ℤ) (rows : List (ℤ × F)) :
    toNumeric (RawCell.text s) = F.nan ∧
    F.sumSkip (toNumeric (RawCell.text s) :: l) = F.sumSkip l ∧
    F.meanSkip (toNumeric (RawCell.text s) :: l) = F.meanSkip l ∧
    F.varSkip (toNumeric (RawCell.text s) :: l) = F.varSkip l ∧
    energieTotale ((d, toNumeric (RawCell.text s)) :: rows) = energieTotale rows := by
  refine ⟨rfl, ?_, ?_, ?_, ?_⟩
  · simp [toNumeric, F.sumSkip, F.isNan]
  · simp [toNumeric, F.meanSkip, F.sumSkip, F.isNan, List.filter_cons]
  · simp [toNumeric, F.varSkip, F.meanSkip, F.sumSkip, F.isNan, List.filter_cons]
  · simp [toNumeric, energieTotale, F.sumSkip, F.mul, F.isNan]

/-- For distinct timestamps, the nearest row to a present timestamp is the
row carrying it (distance zero beats every other row). -/
theorem nearestRow_self {irr : List (ℤ × F)} {t : ℤ} {v : F}
    (hmem : (t, v) ∈ irr) (hdist : (irr.map Prod.fst).Pairwise (· ≠ ·)) :
    nearestRow t irr = some (t, v) := by
  induction irr with
  | nil => cases hmem
  | cons x xs ih =>
      rw [List.map_cons] at hdist
      obtain ⟨hhead1, hdtail⟩ := List.pairwise_cons.mp hdist
      have hhead : ∀ p ∈ xs, x.1 ≠ p.1 := fun p hp =>
        hhead1 p.1 (List.mem_map.mpr ⟨p, hp, rfl⟩)
      rcases List.mem_cons.mp hmem with hx | hx
      · subst hx
        simp only [nearestRow]
        cases hxs : nearestRow t xs with
        | none => rfl
        | some y => simp [sub_self]
      · have hne : x.1 ≠ t := hhead (t, v) hx
        have hxs := ih hx hdtail
        simp only [nearestRow, hxs]
        have hcond : ¬ ((x.1 - t).natAbs ≤ (((t, v) : ℤ × F).1 - t).natAbs) := by
          simp only [sub_self, Int.natAbs_zero, Nat.le_zero, Int.natAbs_eq_zero, sub_eq_zero]
          exact hne
        rw [if_neg hcond]

/-- Claim C8: `merge_asof(..., direction="nearest")` is idempotent — when
the power timestamps are exactly the irradiance timestamps (strictly
increasing, as produced by the time sort), every power timestamp receives
its own irradiance value unchanged. -/
theorem alignement_idempotent (irr : List (ℤ × F))
    (hsorted : (irr.map Prod.fst).Pairwise (· < ·)) :
    mergeAsofNearest (irr.map Prod.fst) irr = irr := by
  have hdist : (irr.map Prod.fst).Pairwise (· ≠ ·) := hsorted.imp ne_of_lt
  unfold mergeAsofNearest
  rw [List.map_map]
  have : ∀ p ∈ irr,
      ((fun t => (t, match nearestRow t irr with
                     | some y => y.2
                     | none => F.nan)) ∘ Prod.fst) p = p := by
    intro p hp
    have := nearestRow_self (t := p.1) (v := p.2) (by simpa using hp) hdist
    simp [this]
  rw [List.map_congr_left this]
  exact List.map_id irr

/-- Witness for `alignement_idempotent` on a concrete two-row irradiance
table. -/
theorem alignement_idempotent_witness :
    mergeAsofNearest [(0 : ℤ), 10] [((0 : ℤ), F.fin 1), ((10 : ℤ), F.fin 2)] =
      [((0 : ℤ), F.fin 1), ((10 : ℤ), F.fin 2)] := by
  have := alignement_idempotent [((0 : ℤ), F.fin 1), ((10 : ℤ), F.fin 2)] (by norm_num)
  simpa using this

theorem F.add_left_comm (a b c : F) : F.add a (F.add b c) = F.add b (F.add a c) := by
  rw [← F.add_assoc, F.add_comm a b, F.add_assoc]

/-- Claim C6, counterexample: with one 6 kW sample on each of the dates
0, 1, 2, the energy over the inclusive range `[0, 2]` is 3 kWh while the
energies over `[0, 1]` and `[1, 2]` are 2 kWh each — the boundary date is
counted twice, so inclusive-range energies are not additive. -/
theorem energie_additive_contre_exemple :
    energieTotale (filtrerPeriode 0 2 [((0 : ℤ), F.fin 6), (1, F.fin 6), (2, F.fin 6)]) ≠
      F.add (energieTotale (filtrerPeriode 0 1 [((0 : ℤ), F.fin 6), (1, F.fin 6), (2, F.fin 6)]))
        (energieTotale (filtrerPeriode 1 2 [((0 : ℤ), F.fin 6), (1, F.fin 6), (2, F.fin 6)])) := by
  norm_num [energieTotale, filtrerPeriode, F.sumSkip, F.mul, F.add, F.isNan, List.filter_cons]

/-- Claim C6 as amended: energy aggregation is additive over a disjoint
split of the inclusive date range — for `t0 ≤ t1 < t2`, the energy over
`[t0, t2]` is the energy over `[t0, t1]` plus the energy over
`[t1 + 1, t2]` (the two inclusive sub-ranges partition the range; no
contiguity of the sampling is needed).  With both sub-ranges inclusive and
sharing the bound `t1`, as the original claim splits them, a sample on the
date `t1` is counted twice (`energie_additive_contre_exemple`). -/
theorem energie_additive_disjointe (t0 t1 t2 : ℤ) (rows : List (ℤ × F))
    (h01 : t0 ≤ t1) (h12 : t1 < t2) :
    energieTotale (filtrerPeriode t0 t2 rows) =
      F.add (energieTotale (filtrerPeriode t0 t1 rows))
        (energieTotale (filtrerPeriode (t1 + 1) t2 rows)) := by
  induction rows with
  | nil => simp [filtrerPeriode, energieTotale, F.sumSkip, F.add]
  | cons r rows ih =>
      simp only [filtrerPeriode] at ih ⊢
      by_cases h1 : t0 ≤ r.1 ∧ r.1 ≤ t1
      · have c02 : decide (t0 ≤ r.1 ∧ r.1 ≤ t2) = true := by
          simp only [decide_eq_true_eq]
          omega
        have c01 : decide (t0 ≤ r.1 ∧ r.1 ≤ t1) = true := by
          simp only [decide_eq_true_eq]
          omega
        have c12 : decide (t1 + 1 ≤ r.1 ∧ r.1 ≤ t2) = false := by
          simp only [decide_eq_false_iff_not]
          omega
        simp only [List.filter_cons, c02, c01, c12, if_true, Bool.false_eq_true, if_false,
          energieTotale, List.map_cons, F.sumSkip] at ih ⊢
        by_cases hn : (F.mul r.2 (F.fin (10 / 60))).isNan
        · simp only [hn, if_true, ih]
        · simp only [hn, if_false, Bool.false_eq_true, ih, F.add_assoc]
      · by_cases h2 : t1 + 1 ≤ r.1 ∧ r.1 ≤ t2
        · have c02 : decide (t0 ≤ r.1 ∧ r.1 ≤ t2) = true := by
            simp only [decide_eq_true_eq]
            omega
          have c01 : decide (t0 ≤ r.1 ∧ r.1 ≤ t1) = false := by
            simp only [decide_eq_false_iff_not]
            omega
          have c12 : decide (t1 + 1 ≤ r.1 ∧ r.1 ≤ t2) = true := by
            simp only [decide_eq_true_eq]
            omega
          simp only [List.filter_cons, c02, c01, c12, if_true, Bool.false_eq_true, if_false,
            energieTotale, List.map_cons, F.sumSkip] at ih ⊢
          by_cases hn : (F.mul r.2 (F.fin (10 / 60))).isNan
          · simp only [hn, if_true, ih]
          · simp only [hn, if_false, Bool.false_eq_true, ih, F.add_left_comm]
        · have c02 : decide (t0 ≤ r.1 ∧ r.1 ≤ t2) = false := by
            simp only [decide_eq_false_iff_not]
            omega
          have c01 : decide (t0 ≤ r.1 ∧ r.1 ≤ t1) = false := by
            simp only [decide_eq_false_iff_not]
            omega
          have c12 : decide (t1 + 1 ≤ r.1 ∧ r.1 ≤ t2) = false := by
            simp only [decide_eq_false_iff_not]
            omega
          simp only [List.filter_cons, c02, c01, c12, Bool.false_eq_true, if_false]
          exact ih

/-- Witness for `energie_additive_disjointe` on the counterexample data
with the disjoint split `[0, 1]` and `[2, 2]`. -/
theorem energie_additive_disjointe_witness :
    energieTotale (filtrerPeriode 0 2 [((0 : ℤ), F.fin 6), (1, F.fin 6), (2, F.fin 6)]) =
      F.add (energieTotale (filtrerPeriode 0 1 [((0 : ℤ), F.fin 6), (1, F.fin 6), (2, F.fin 6)]))
        (energieTotale
          (filtrerPeriode (1 + 1) 2 [((0 : ℤ), F.fin 6), (1, F.fin 6), (2, F.fin 6)])) :=
  energie_additive_disjointe 0 1 2 [((0 : ℤ), F.fin 6), (1, F.fin 6), (2, F.fin 6)]
    (by norm_num) (by norm_num)

theorem F.ltSqrtSeuil_nan_var (a b : F) : F.ltSqrtSeuil a b F.nan = false := by
  cases a <;> cases b <;> rfl

/-- Claim C4, code bug: for a below-mean string with an empty comparable
set the code sets `ecart_pct` to the dash string and then formats it with
`:.2f`, which raises `ValueError` — the analysis crashes instead of
emitting a NoPeers row.  Concretely: three strings with ratios 4, 4, 1 and
string 3 alone with its `(nombre pv, puissance unitaire)`. -/
theorem alerte_sans_pairs_leve_exception :
    detecterAlertes [⟨1, F.fin 4⟩, ⟨2, F.fin 4⟩, ⟨3, F.fin 1⟩]
        [⟨1, 1, 10⟩, ⟨2, 1, 10⟩, ⟨3, 2, 8⟩] =
      Except.error "ValueError: Unknown format code f for object of type str" := by
  norm_num [detecterAlertes, analyserListe, analyserString, ratiosComparables,
    stringsComparables, F.meanSkip, F.sumSkip, F.varSkip, F.lt, F.isNan, trouverCarac,
    formatDeuxDecimales, F.add, F.div, F.mul, F.sub, F.neg, F.absF, F.ltSqrtSeuil]

/-- Claim C10: a below-mean string whose comparable set yields exactly one
ratio gets a NaN sample standard deviation (`std` with `ddof = 1` of a
single value), the strict comparison against the NaN threshold is false,
and the string is classified Acceptable whatever its ratio. -/
theorem pair_unique_toujours_acceptable (res : List ResRow) (carac : List CaracRow)
    (r : ResRow) (c : CaracRow) (p : F)
    (hc : trouverCarac carac r.string = some c)
    (hbelow : F.lt r.ratio (F.meanSkip (res.map (fun t => t.ratio))) = true)
    (hpeers : ratiosComparables res (stringsComparables carac c) = [p]) :
    F.varSkip [p] = F.nan ∧
    ∃ a, analyserString res carac r = Except.ok a ∧ a.message = Message.acceptable := by
  have hvar : F.varSkip [p] = F.nan := by
    cases p <;> simp [F.varSkip, F.isNan]
  refine ⟨hvar, ?_⟩
  refine ⟨{ string := r.string,
            ecart := Ecart.val (F.mul (F.div (F.absF (F.sub (F.meanSkip [p]) r.ratio))
              (F.meanSkip [p])) (F.fin 100)),
            message := Message.acceptable }, ?_, rfl⟩
  simp only [analyserString, hc, hpeers, List.isEmpty_cons, Bool.false_eq_true, if_false,
    hvar, F.ltSqrtSeuil_nan_var, formatDeuxDecimales]

/-- Witness for `pair_unique_toujours_acceptable`: string 3 has ratio 1,
far below its single peer ratio 4, and is still classified Acceptable. -/
theorem pair_unique_toujours_acceptable_witness :
    F.varSkip [F.fin 4] = F.nan ∧
    ∃ a, analyserString [⟨1, F.fin 4⟩, ⟨2, F.fin 4⟩, ⟨3, F.fin 1⟩]
        [⟨1, 2, 5⟩, ⟨2, 1, 10⟩, ⟨3, 1, 10⟩] ⟨3, F.fin 1⟩ = Except.ok a ∧
      a.message = Message.acceptable :=
  pair_unique_toujours_acceptable [⟨1, F.fin 4⟩, ⟨2, F.fin 4⟩, ⟨3, F.fin 1⟩]
    [⟨1, 2, 5⟩, ⟨2, 1, 10⟩, ⟨3, 1, 10⟩] ⟨3, F.fin 1⟩ ⟨3, 1, 10⟩ (F.fin 4)
    (by norm_num [trouverCarac])
    (by norm_num [F.meanSkip, F.sumSkip, F.isNan, F.add, F.div, F.lt])
    (by norm_num [ratiosComparables, stringsComparables, trouverCarac])

/-- Claim C2: for a below-mean string whose comparable set is non-empty,
with finite peer mean `m ≠ 0`, finite nonnegative sample variance `v` and
finite ratio `x`, the loop body emits a row that is classified Anormal
exactly when `x < m - 1.5 * sqrt v` (the source threshold
`moyenne - k * ecart_type` with `k = 1.5`), Acceptable otherwise, and
whose deviation is `|m - x| / m * 100`. -/
theorem classification_seuil_et_ecart (res : List ResRow) (carac : List CaracRow)
    (r : ResRow) (c : CaracRow) (m v x : ℚ)
    (hc : trouverCarac carac r.string = some c)
    (hbelow : F.lt r.ratio (F.meanSkip (res.map (fun t => t.ratio))) = true)
    (hne : ratiosComparables res (stringsComparables carac c) ≠ [])
    (hm : F.meanSkip (ratiosComparables res (stringsComparables carac c)) = F.fin m)
    (hv : F.varSkip (ratiosComparables res (stringsComparables carac c)) = F.fin v)
    (hvpos : 0 ≤ v) (hx : r.ratio = F.fin x) (hm0 : m ≠ 0) :
    ∃ a, analyserString res carac r = Except.ok a ∧
      (a.message = Message.anormal ↔ (x : ℝ) < (m : ℝ) - 3 / 2 * Real.sqrt (v : ℝ)) ∧
      (a.message = Message.anormal ∨ a.message = Message.acceptable) ∧
      a.ecart = Ecart.val (F.fin (|m - x| / m * 100)) := by
  have hempty : (ratiosComparables res (stringsComparables carac c)).isEmpty = false := by
    cases hr : ratiosComparables res (stringsComparables carac c) with
    | nil => exact absurd hr hne
    | cons y ys => rfl
  have hecart : F.mul (F.div (F.absF (F.sub
      (F.meanSkip (ratiosComparables res (stringsComparables carac c))) r.ratio))
      (F.meanSkip (ratiosComparables res (stringsComparables carac c)))) (F.fin 100) =
      F.fin (|m - x| / m * 100) := by
    rw [hm, hx]
    simp only [F.sub, F.neg, F.add, F.absF, F.div, F.mul, if_neg hm0]
    rw [← sub_eq_add_neg]
  by_cases hseuil :
      F.ltSqrtSeuil r.ratio (F.meanSkip (ratiosComparables res (stringsComparables carac c)))
        (F.varSkip (ratiosComparables res (stringsComparables carac c))) = true
  · refine ⟨{ string := r.string, ecart := Ecart.val (F.fin (|m - x| / m * 100)),
              message := Message.anormal }, ?_, ?_, Or.inl rfl, rfl⟩
    · simp only [analyserString, hc, hempty, Bool.false_eq_true, if_false, hseuil, if_true,
        hecart, formatDeuxDecimales]
    · simp only [true_iff]
      rw [hm, hv, hx] at hseuil
      exact (ltSqrtSeuil_iff_real x m v hvpos).mp hseuil
  · refine ⟨{ string := r.string, ecart := Ecart.val (F.fin (|m - x| / m * 100)),
              message := Message.acceptable }, ?_, ?_, Or.inr rfl, rfl⟩
    · simp only [analyserString, hc, hempty, Bool.false_eq_true, if_false,
        Bool.not_eq_true] at hseuil ⊢
      simp only [hseuil, if_false, hecart, formatDeuxDecimales, Bool.false_eq_true]
    · constructor
      · intro h
        cases h
      · intro h
        rw [hm, hv, hx] at hseuil
        exact absurd ((ltSqrtSeuil_iff_real x m v hvpos).mpr h) hseuil

/-- Witness for `classification_seuil_et_ecart`: ratios 4, 4, 1 with all
three strings sharing one spec — string 3 has peers with mean 4, variance
0, is classified Anormal since `1 < 4 - 1.5 * sqrt 0`, with deviation
`|4 - 1| / 4 * 100 = 75`. -/
theorem classification_seuil_et_ecart_witness :
    ∃ a, analyserString [⟨1, F.fin 4⟩, ⟨2, F.fin 4⟩, ⟨3, F.fin 1⟩]
        [⟨1, 1, 10⟩, ⟨2, 1, 10⟩, ⟨3, 1, 10⟩] ⟨3, F.fin 1⟩ = Except.ok a ∧
      (a.message = Message.anormal ↔
        ((1 : ℚ) : ℝ) < ((4 : ℚ) : ℝ) - 3 / 2 * Real.sqrt ((0 : ℚ) : ℝ)) ∧
      (a.message = Message.anormal ∨ a.message = Message.acceptable) ∧
      a.ecart = Ecart.val (F.fin (|(4 : ℚ) - 1| / 4 * 100)) :=
  classification_seuil_et_ecart [⟨1, F.fin 4⟩, ⟨2, F.fin 4⟩, ⟨3, F.fin 1⟩]
    [⟨1, 1, 10⟩, ⟨2, 1, 10⟩, ⟨3, 1, 10⟩] ⟨3, F.fin 1⟩ ⟨3, 1, 10⟩ 4 0 1
    (by norm_num [trouverCarac])
    (by norm_num [F.meanSkip, F.sumSkip, F.isNan, F.add, F.div, F.lt])
    (by intro h; simp [ratiosComparables, stringsComparables, trouverCarac] at h)
    (by norm_num [ratiosComparables, stringsComparables, trouverCarac, F.meanSkip,
      F.sumSkip, F.isNan, F.add, F.div])
    (by norm_num [ratiosComparables, stringsComparables, trouverCarac, F.varSkip,
      F.meanSkip, F.sumSkip, F.isNan, F.add, F.sub, F.neg, F.mul, F.div])
    (by norm_num) rfl (by norm_num)

/-- A successfully built alert row carries the id of the row it was built
from. -/
theorem analyserString_id {res : List ResRow} {carac : List CaracRow} {r : ResRow}
    {a : Alerte} (h : analyserString res carac r = Except.ok a) : a.string = r.string := by
  cases hco : trouverCarac carac r.string with
  | none =>
      simp only [analyserString, hco] at h
      cases h
  | some c =>
      by_cases hempty : (ratiosComparables res (stringsComparables carac c)).isEmpty = true
      · simp only [analyserString, hco, hempty, if_true, formatDeuxDecimales] at h
        cases h
      · simp only [analyserString, hco, hempty, if_false, Bool.false_eq_true,
          formatDeuxDecimales] at h
        rw [← Except.ok.inj h]

/-- Every alert produced by the loop comes from one of the processed rows. -/
theorem analyserListe_ids {res : List ResRow} {carac : List CaracRow} :
    ∀ {l : List ResRow} {as : List Alerte}, analyserListe res carac l = Except.ok as →
      ∀ a ∈ as, ∃ r ∈ l, a.string = r.string := by
  intro l
  induction l with
  | nil =>
      intro as h a ha
      simp only [analyserListe] at h
      rw [← Except.ok.inj h] at ha
      cases ha
  | cons r rs ih =>
      intro as h a ha
      cases hra : analyserString res carac r with
      | error e =>
          simp only [analyserListe, hra] at h
          cases h
      | ok a1 =>
          cases hrs : analyserListe res carac rs with
          | error e =>
              simp only [analyserListe, hra, hrs] at h
              cases h
          | ok as1 =>
              simp only [analyserListe, hra, hrs] at h
              rw [← Except.ok.inj h] at ha
              rcases List.mem_cons.mp ha with rfl | ha'
              · exact ⟨r, List.mem_cons_self r rs, analyserString_id hra⟩
              · obtain ⟨r', hr', hid⟩ := ih hrs a ha'
                exact ⟨r', List.mem_cons_of_mem r hr', hid⟩

/-- Claim C3: a string whose ratio is not strictly below the global mean
ratio of its inverter is never the subject of an alert row — the detector
only iterates over the rows selected by `ratio < moyenne_globale`. -/
theorem pas_d_alerte_au_dessus_moyenne (res : List ResRow) (carac : List CaracRow)
    (s : ℤ) (as : List Alerte)
    (hok : detecterAlertes res carac = Except.ok as)
    (habove : ∀ r ∈ res, r.string = s →
      F.lt r.ratio (F.meanSkip (res.map (fun t => t.ratio))) = false) :
    ∀ a ∈ as, a.string ≠ s := by
  intro a ha heq
  simp only [detecterAlertes] at hok
  obtain ⟨r, hr, hid⟩ := analyserListe_ids hok a ha
  have hmem : r ∈ res := (List.mem_filter.mp hr).1
  have hlt : F.lt r.ratio (F.meanSkip (res.map (fun t => t.ratio))) = true :=
    (List.mem_filter.mp hr).2
  have hfalse := habove r hmem (by rw [← hid, heq])
  rw [hlt] at hfalse
  cases hfalse

/-- Witness for `pas_d_alerte_au_dessus_moyenne`: with ratios 4, 4, 1 the
detector emits a single alert, about string 3; string 1 (at ratio 4, above
the mean 3) is never named. -/
theorem pas_d_alerte_au_dessus_moyenne_witness :
    (({ string := 3, ecart := Ecart.val (F.fin 75),
        message := Message.anormal } : Alerte).string = 1) = False :=
  eq_false
    (pas_d_alerte_au_dessus_moyenne [⟨1, F.fin 4⟩, ⟨2, F.fin 4⟩, ⟨3, F.fin 1⟩]
      [⟨1, 1, 10⟩, ⟨2, 1, 10⟩, ⟨3, 1, 10⟩] 1
      [{ string := 3, ecart := Ecart.val (F.fin 75), message := Message.anormal }]
      (by norm_num [detecterAlertes, analyserListe, analyserString, ratiosComparables,
        stringsComparables, F.meanSkip, F.sumSkip, F.varSkip, F.lt, F.isNan, trouverCarac,
        formatDeuxDecimales, F.add, F.div, F.mul, F.sub, F.neg, F.absF, F.ltSqrtSeuil])
      (by
        intro r hr hs
        simp only [List.mem_cons, List.not_mem_nil, or_false] at hr
        rcases hr with rfl | rfl | rfl
        · norm_num [F.lt, F.meanSkip, F.sumSkip, F.isNan, F.add, F.div]
        · simp at hs
        · simp at hs)
      { string := 3, ecart := Ecart.val (F.fin 75), message := Message.anormal }
      (List.mem_singleton.mpr rfl))


theorem F.div_nan (v : F) : F.div v F.nan = F.nan := by
  cases v <;> rfl

theorem F.leDesc_pinf {x : F} (h : F.leDesc x F.pinf = true) : x = F.pinf := by
  cases x <;> simp [F.leDesc] at h ⊢

/-- Claim C1, counterexample: string 2 has installed capacity 0 (unit power
0) and produced energy 5 kWh, string 4 appears in the power file with no
characteristics row.  The computation silently yields ratio `+inf` for
string 2 and NaN for string 4 — no MissingCharacteristics signal exists —
and the `+inf` string is ranked (first) in the top-performers table instead
of being excluded. -/
theorem ratio_inf_dans_top3_contre_exemple :
    (calculerResultats [((1 : ℤ), F.fin 10), (2, F.fin 5), (3, F.fin 8), (4, F.fin 2)]
        [⟨1, 1, 4⟩, ⟨2, 0, 10⟩, ⟨3, 1, 2⟩]).map (fun r => r.ratio) =
      [F.fin (5 / 2), F.pinf, F.fin 4, F.nan] ∧
    ({ string := 2, ratio := F.pinf } : ResRow) ∈
      top3 (calculerResultats [((1 : ℤ), F.fin 10), (2, F.fin 5), (3, F.fin 8), (4, F.fin 2)]
        [⟨1, 1, 4⟩, ⟨2, 0, 10⟩, ⟨3, 1, 2⟩]) := by
  constructor <;>
    norm_num [calculerResultats, trouverCarac, puissanceInstallee, F.div, top3,
      List.insertionSort, List.orderedInsert, RatioDesc, F.leDesc]

/-- Claim C1 as amended: the ratio equals produced energy divided by
installed capacity whenever a characteristics row with nonzero capacity
matches; a missing characteristics row yields a NaN ratio and a zero
capacity with positive energy yields a `+inf` ratio, both silently (the
computation has no error channel), and a `+inf`-ratio string ranks first in
the top-performers table rather than being excluded. -/
theorem ratio_zero_ou_absente_amende (energies : List (ℤ × F)) (carac : List CaracRow) :
    (∀ (i : ℕ) (s : ℤ) (e : ℚ) (c : CaracRow), energies[i]? = some (s, F.fin e) →
      trouverCarac carac s = some c → puissanceInstallee c ≠ 0 →
      (calculerResultats energies carac)[i]? =
        some ({ string := s, ratio := F.fin (e / puissanceInstallee c) } : ResRow)) ∧
    (∀ (i : ℕ) (s : ℤ) (v : F), energies[i]? = some (s, v) →
      trouverCarac carac s = none →
      (calculerResultats energies carac)[i]? =
        some ({ string := s, ratio := F.nan } : ResRow)) ∧
    (∀ (i : ℕ) (s : ℤ) (e : ℚ) (c : CaracRow), energies[i]? = some (s, F.fin e) →
      trouverCarac carac s = some c → puissanceInstallee c = 0 → 0 < e →
      (calculerResultats energies carac)[i]? =
        some ({ string := s, ratio := F.pinf } : ResRow)) ∧
    (∀ rows : List ResRow, ∀ r ∈ rows, r.ratio = F.pinf →
      ∃ r', (top3 rows).head? = some r' ∧ r'.ratio = F.pinf) := by
  refine ⟨?_, ?_, ?_, ?_⟩
  · intro i s e c h1 h2 h3
    simp [calculerResultats, List.getElem?_map, h1, h2, F.div, h3]
  · intro i s v h1 h2
    simp [calculerResultats, List.getElem?_map, h1, h2, F.div_nan]
  · intro i s e c h1 h2 h3 h4
    simp [calculerResultats, List.getElem?_map, h1, h2, F.div, h3, h4]
  · intro rows r hr hratio
    have hperm := List.perm_insertionSort RatioDesc rows
    have hsort := List.sorted_insertionSort RatioDesc rows
    have hmem : r ∈ List.insertionSort RatioDesc rows := hperm.mem_iff.mpr hr
    cases hl : List.insertionSort RatioDesc rows with
    | nil =>
        rw [hl] at hmem
        cases hmem
    | cons h0 t0 =>
        rw [hl] at hmem hsort
        have hhead : h0.ratio = F.pinf := by
          rcases List.mem_cons.mp hmem with rfl | hmem'
          · exact hratio
          · have hrel : F.leDesc h0.ratio r.ratio = true :=
              (List.pairwise_cons.mp hsort).1 r hmem'
            rw [hratio] at hrel
            exact F.leDesc_pinf hrel
        refine ⟨h0, ?_, hhead⟩
        have hn : 0 < rows.length := List.length_pos_of_mem hr
        obtain ⟨k, hk⟩ : ∃ k, min 3 rows.length = k + 1 :=
          ⟨min 3 rows.length - 1, by omega⟩
        unfold top3
        rw [hl, hk, List.take_succ_cons]
        rfl

/-- Witness for `ratio_zero_ou_absente_amende` at a concrete table: normal
division for string 1, `+inf` for zero-capacity string 2, NaN for string 4
without characteristics, and the `+inf` row at the head of the ranking. -/
theorem ratio_zero_ou_absente_amende_witness :
    (calculerResultats [((1 : ℤ), F.fin 10), (2, F.fin 5), (4, F.fin 2)]
        [⟨1, 1, 4⟩, ⟨2, 0, 10⟩])[0]? =
      some { string := 1, ratio := F.fin (10 / puissanceInstallee ⟨1, 1, 4⟩) } ∧
    (calculerResultats [((1 : ℤ), F.fin 10), (2, F.fin 5), (4, F.fin 2)]
        [⟨1, 1, 4⟩, ⟨2, 0, 10⟩])[1]? = some { string := 2, ratio := F.pinf } ∧
    (calculerResultats [((1 : ℤ), F.fin 10), (2, F.fin 5), (4, F.fin 2)]
        [⟨1, 1, 4⟩, ⟨2, 0, 10⟩])[2]? = some { string := 4, ratio := F.nan } ∧
    ∃ r', (top3 [{ string := 2, ratio := F.pinf }]).head? = some r' ∧ r'.ratio = F.pinf := by
  refine ⟨?_, ?_, ?_, ?_⟩
  · exact (ratio_zero_ou_absente_amende [((1 : ℤ), F.fin 10), (2, F.fin 5), (4, F.fin 2)]
      [⟨1, 1, 4⟩, ⟨2, 0, 10⟩]).1 0 1 10 ⟨1, 1, 4⟩ rfl (by norm_num [trouverCarac])
      (by norm_num [puissanceInstallee])
  · exact (ratio_zero_ou_absente_amende [((1 : ℤ), F.fin 10), (2, F.fin 5), (4, F.fin 2)]
      [⟨1, 1, 4⟩, ⟨2, 0, 10⟩]).2.2.1 1 2 5 ⟨2, 0, 10⟩ rfl (by norm_num [trouverCarac])
      (by norm_num [puissanceInstallee]) (by norm_num)
  · exact (ratio_zero_ou_absente_amende [((1 : ℤ), F.fin 10), (2, F.fin 5), (4, F.fin 2)]
      [⟨1, 1, 4⟩, ⟨2, 0, 10⟩]).2.1 2 4 (F.fin 2) rfl (by norm_num [trouverCarac])
  · exact (ratio_zero_ou_absente_amende [] []).2.2.2 [{ string := 2, ratio := F.pinf }]
      { string := 2, ratio := F.pinf } (List.mem_singleton.mpr rfl) rfl
